import Mathlib

/-
Verification development for the KUKA iiwa inverse-kinematics control node
(src/iiwa_kdl/src/kuka_invkin_ctrl.cpp).  The control and solver logic of the
node is embedded shallowly below: pure computations become Lean functions over
exact rationals or reals, the shared mutable state of the node becomes an
explicit state record with a step function over events, and the external KDL
solvers are treated as oracles whose results are passed in as data.
-/

namespace KukaInvKin

/-! ## TrajectoryGenerator (ctrl_loop, desired frame F_dest)

The tracking loop builds the desired frame as
  F_dest.p.data[0] = 0.3*cos(_t/(2*M_PI));
  F_dest.p.data[1] = 0.3*sin(_t/(2*M_PI));
  F_dest.p.data[2] = 1.0;
and fills F_dest.M with 1 at flat indices 0, 4, 8 and 0 elsewhere. -/

/-- X component of the desired position at elapsed tracking time t. -/
noncomputable def trajX (t : ℝ) : ℝ := 0.3 * Real.cos (t / (2 * Real.pi))

/-- Y component of the desired position at elapsed tracking time t. -/
noncomputable def trajY (t : ℝ) : ℝ := 0.3 * Real.sin (t / (2 * Real.pi))

/-- Z component of the desired position at elapsed tracking time t. -/
def trajZ (_t : ℝ) : ℝ := 1.0

/-- Desired rotation matrix in flat row-major form: the loop writes 1 at
indices 0, 4, 8 and 0 at every other index. -/
def trajM : Fin 9 → ℝ := fun i => if i.val = 0 ∨ i.val = 4 ∨ i.val = 8 then 1 else 0

/-- Desired pose produced by the trajectory generator at time t. -/
noncomputable def trajPose (t : ℝ) : (ℝ × ℝ × ℝ) × (Fin 9 → ℝ) :=
  ((trajX t, trajY t, trajZ t), trajM)

/-- Row-major flattening of a 3x3 matrix, connecting the flat 9-entry KDL
rotation data to matrices. -/
def flatten (M : Matrix (Fin 3) (Fin 3) ℝ) : Fin 9 → ℝ :=
  fun i => M ⟨i.val / 3, by have h := i.isLt; omega⟩ ⟨i.val % 3, by omega⟩

lemma trajM_eq_flatten_one : trajM = flatten (1 : Matrix (Fin 3) (Fin 3) ℝ) := by
  funext i
  fin_cases i <;> simp [trajM, flatten, Matrix.one_apply]

lemma trajX_sq_add_trajY_sq (t : ℝ) : trajX t ^ 2 + trajY t ^ 2 = 0.09 := by
  have h := Real.cos_sq_add_sin_sq (t / (2 * Real.pi))
  unfold trajX trajY
  nlinarith [h]

/-- C4: for every elapsed tracking time t the desired pose is position
(0.3·cos(t/(2π)), 0.3·sin(t/(2π)), 1.0) with identity orientation; at t = 0
the position is (0.3, 0, 1.0); and for all t the position lies on the circle
x² + y² = 0.09 at height z = 1.0. -/
theorem trajectory_circle_spec (t : ℝ) :
    trajPose t = ((0.3 * Real.cos (t / (2 * Real.pi)),
                   0.3 * Real.sin (t / (2 * Real.pi)), 1.0),
                  flatten (1 : Matrix (Fin 3) (Fin 3) ℝ))
    ∧ trajPose 0 = ((0.3, 0, 1.0), flatten (1 : Matrix (Fin 3) (Fin 3) ℝ))
    ∧ trajX t ^ 2 + trajY t ^ 2 = 0.09
    ∧ trajZ t = 1.0 := by
  refine ⟨?_, ?_, trajX_sq_add_trajY_sq t, rfl⟩
  · simp [trajPose, trajX, trajY, trajZ, trajM_eq_flatten_one]
  · simp [trajPose, trajX, trajY, trajZ, trajM_eq_flatten_one]

/-- C3 counterexample: one full parametric cycle of the trajectory is not
t = 2π.  At t = 2π the angular argument is (2π)/(2π) = 1 rad, so the x
component is 0.3·cos 1 ≤ 0.2, while at t = 0 it is 0.3; the two desired poses
differ (by about 0.14 m, far beyond floating-point tolerance). -/
theorem trajectory_not_periodic_at_two_pi :
    trajPose (2 * Real.pi) ≠ trajPose 0 := by
  intro h
  have hx : trajX (2 * Real.pi) = trajX 0 := by
    have := congrArg (fun p => p.1.1) h
    simpa [trajPose] using this
  have hpi : (2 * Real.pi) / (2 * Real.pi) = 1 := by
    have : (2 * Real.pi) ≠ 0 := by positivity
    field_simp
  rw [trajX, trajX, hpi] at hx
  simp only [zero_div, Real.cos_zero, mul_one] at hx
  have hc1 : Real.cos 1 ≤ 2 / 3 := Real.cos_one_le
  nlinarith [hx, hc1]

/-- C3 amended: the trajectory is periodic with parametric period 4π² in the
elapsed time t (the angular argument t/(2π) then advances by exactly 2π):
for every t, the desired pose at t + 4π² equals the desired pose at t. -/
theorem trajectory_periodic_four_pi_sq (t : ℝ) :
    trajPose (t + 4 * Real.pi ^ 2) = trajPose t := by
  have hpi : (2 : ℝ) * Real.pi ≠ 0 := by positivity
  have harg : (t + 4 * Real.pi ^ 2) / (2 * Real.pi) = t / (2 * Real.pi) + 2 * Real.pi := by
    field_simp
    ring
  simp only [trajPose, trajX, trajY, trajZ, harg,
    Real.cos_add_two_pi, Real.sin_add_two_pi]

/-! ## HomingRoutine (goto_initial_position)

The routine keeps a running maximum error, initialized to 1000.0, and loops
while it exceeds 0.002.  Each loop body publishes the target value dp[i] on
all 7 command channels, recomputes the maximum over the 7 absolute errors
|dp[i] - _q_in->data[i]| starting from -1000, and sleeps one polling period.
The feedback vector read in iteration k is modelled as the k-th element of a
feedback stream, and the loop is run on explicit fuel; the result is the
number of executed loop bodies together with the list of published commands
(one 7-joint command vector per body). -/

/-- Convergence threshold of the homing loop (0.002 rad). -/
def homingThreshold : ℚ := 0.002

/-- Absolute value as the source's fabs call. -/
def fabsQ (x : ℚ) : ℚ := if x < 0 then -x else x

/-- The source's ternary update max_e = (e > max_e) ? e : max_e. -/
def maxQ (e m : ℚ) : ℚ := if e > m then e else m

lemma fabsQ_eq_abs (x : ℚ) : fabsQ x = |x| := by
  rw [fabsQ, abs]
  rcases lt_or_le x 0 with h | h
  · rw [if_pos h]
    exact (sup_eq_right.mpr (by linarith)).symm
  · rw [if_neg (not_lt.mpr h)]
    exact (sup_eq_left.mpr (by linarith)).symm

lemma maxQ_eq_max (e m : ℚ) : maxQ e m = max e m := by
  rw [maxQ]
  rcases le_or_lt e m with h | h
  · rw [if_neg (not_lt.mpr h), max_eq_right h]
  · rw [if_pos h, max_eq_left (le_of_lt h)]

/-- Maximum absolute per-joint error as computed by the loop body: a fold of
the ternary max update over the 7 errors, seeded with -1000 as in the
source. -/
def maxErr (tgt q : Fin 7 → ℚ) : ℚ :=
  (List.finRange 7).foldl (fun m i => maxQ (fabsQ (tgt i - q i)) m) (-1000)

lemma maxErr_eq_foldl_max (tgt q : Fin 7 → ℚ) :
    maxErr tgt q = (List.finRange 7).foldl (fun m i => max |tgt i - q i| m) (-1000) := by
  simp only [maxErr, maxQ_eq_max, fabsQ_eq_abs]

/-- One run of the homing while-loop starting before iteration k: executes
the body (publish target, recompute the maximum error against feedback
snapshot fb k), exits when the recomputed maximum error is not above the
threshold.  Returns (number of the iteration after which the loop exits,
published command vectors), or none when the fuel runs out. -/
def homingAux (tgt : Fin 7 → ℚ) (fb : ℕ → Fin 7 → ℚ) :
    ℕ → ℕ → Option (ℕ × List (Fin 7 → ℚ))
  | 0, _ => none
  | fuel + 1, k =>
    if maxErr tgt (fb k) ≤ homingThreshold then
      some (k + 1, [tgt])
    else
      match homingAux tgt fb fuel (k + 1) with
      | none => none
      | some (n, pubs) => some (n, tgt :: pubs)

lemma le_foldl_max (f : Fin 7 → ℚ) :
    ∀ (l : List (Fin 7)) (a : ℚ), a ≤ l.foldl (fun m i => max (f i) m) a := by
  intro l
  induction l with
  | nil => intro a; exact le_refl a
  | cons j l ih =>
    intro a
    exact le_trans (le_max_right (f j) a) (ih (max (f j) a))

lemma mem_le_foldl_max (f : Fin 7 → ℚ) :
    ∀ (l : List (Fin 7)) (a : ℚ) (x : Fin 7), x ∈ l →
      f x ≤ l.foldl (fun m i => max (f i) m) a := by
  intro l
  induction l with
  | nil => intro a x hx; exact absurd hx (List.not_mem_nil x)
  | cons j l ih =>
    intro a x hx
    rcases List.mem_cons.mp hx with h | h
    · subst h
      exact le_trans (le_max_left (f x) a) (le_foldl_max f l (max (f x) a))
    · exact ih (max (f j) a) x h

lemma err_le_maxErr (tgt q : Fin 7 → ℚ) (i : Fin 7) :
    |tgt i - q i| ≤ maxErr tgt q := by
  rw [maxErr_eq_foldl_max]
  exact mem_le_foldl_max (fun j => |tgt j - q j|) (List.finRange 7) (-1000) i
    (List.mem_finRange i)

lemma homingAux_spec (tgt : Fin 7 → ℚ) (fb : ℕ → Fin 7 → ℚ) :
    ∀ fuel k n pubs, homingAux tgt fb fuel k = some (n, pubs) →
      k < n ∧ maxErr tgt (fb (n - 1)) ≤ homingThreshold
        ∧ (∀ m, k ≤ m → m < n - 1 → homingThreshold < maxErr tgt (fb m))
        ∧ pubs = List.replicate (n - k) tgt := by
  intro fuel
  induction fuel with
  | zero =>
    intro k n pubs h
    simp [homingAux] at h
  | succ fuel ih =>
    intro k n pubs h
    rw [homingAux] at h
    by_cases hc : maxErr tgt (fb k) ≤ homingThreshold
    · rw [if_pos hc] at h
      obtain ⟨hn, hpubs⟩ := Prod.mk.injEq .. ▸ Option.some.injEq .. ▸ h
      subst hn
      refine ⟨Nat.lt_succ_self k, by simpa using hc, ?_, ?_⟩
      · intro m hkm hm
        omega
      · simp [← hpubs]
    · rw [if_neg hc] at h
      cases hrec : homingAux tgt fb fuel (k + 1) with
      | none => rw [hrec] at h; exact absurd h (by simp)
      | some p =>
        obtain ⟨n', pubs'⟩ := p
        rw [hrec] at h
        obtain ⟨hn, hpubs⟩ := Prod.mk.injEq .. ▸ Option.some.injEq .. ▸ h
        obtain ⟨hk, hconv, hbefore, hrep⟩ := ih (k + 1) n' pubs' hrec
        subst hn
        refine ⟨by omega, hconv, ?_, ?_⟩
        · intro m hkm hm
          rcases Nat.eq_or_lt_of_le hkm with heq | hlt
          · subst heq; exact lt_of_not_le hc
          · exact hbefore m hlt hm
        · have hsub : n' - k = (n' - (k + 1)) + 1 := by omega
          rw [← hpubs, hrep, hsub, List.replicate_succ]

/-- C5 counterexample: a feedback stream whose maximum error is exactly the
threshold 0.002.  The loop exits immediately (the source condition is
max_e > 0.002, i.e. exit at ≤), although the error is not strictly below
0.002, so the routine does return before the error is below 0.002 rad. -/
def tgtCx : Fin 7 → ℚ := fun _ => 0

/-- Feedback stream for the boundary counterexample: every joint reads
exactly 0.002 away from the target at every poll. -/
def fbCx : ℕ → Fin 7 → ℚ := fun _ _ => 2 / 1000

theorem homing_threshold_boundary_cx :
    homingAux tgtCx fbCx 2 0 = some (1, [tgtCx])
      ∧ ¬ (maxErr tgtCx (fbCx 0) < homingThreshold) := by
  constructor
  · norm_num [homingAux, maxErr, maxQ, fabsQ, tgtCx, fbCx, homingThreshold,
      List.finRange, List.range, List.range.loop]
  · norm_num [maxErr, maxQ, fabsQ, tgtCx, fbCx, homingThreshold,
      List.finRange, List.range, List.range.loop]

/-- C5 amended: whenever the homing loop returns after n iterations, the
maximum absolute per-joint error against the last feedback snapshot is at
most (not strictly below) the 0.002 rad threshold — hence every joint error
is at most 0.002 — it was strictly above the threshold on every earlier
snapshot, and the published commands are exactly n copies of the 7-joint
target vector. -/
theorem homing_exit_condition (tgt : Fin 7 → ℚ) (fb : ℕ → Fin 7 → ℚ)
    (fuel n : ℕ) (pubs : List (Fin 7 → ℚ))
    (h : homingAux tgt fb fuel 0 = some (n, pubs)) :
    1 ≤ n ∧ maxErr tgt (fb (n - 1)) ≤ homingThreshold
      ∧ (∀ m, m < n - 1 → homingThreshold < maxErr tgt (fb m))
      ∧ (∀ i : Fin 7, |tgt i - fb (n - 1) i| ≤ homingThreshold)
      ∧ pubs = List.replicate n tgt := by
  obtain ⟨hk, hconv, hbefore, hrep⟩ := homingAux_spec tgt fb fuel 0 n pubs h
  exact ⟨hk, hconv, fun m hm => hbefore m (Nat.zero_le m) hm,
    fun i => le_trans (err_le_maxErr tgt (fb (n - 1)) i) hconv,
    by simpa using hrep⟩

/-- Witness for homing_exit_condition: target all zeros, feedback far on the
first poll and exactly on target from the second poll on; the loop exits
after 2 iterations. -/
def tgtW : Fin 7 → ℚ := fun _ => 0

/-- Feedback stream for the exit-condition witness. -/
def fbW : ℕ → Fin 7 → ℚ := fun k _ => if k = 0 then 1 else 0

theorem homing_exit_condition_witness :
    1 ≤ 2 ∧ maxErr tgtW (fbW (2 - 1)) ≤ homingThreshold
      ∧ (∀ m, m < 2 - 1 → homingThreshold < maxErr tgtW (fbW m))
      ∧ (∀ i : Fin 7, |tgtW i - fbW (2 - 1) i| ≤ homingThreshold)
      ∧ [tgtW, tgtW] = List.replicate 2 tgtW :=
  homing_exit_condition tgtW fbW 5 2 [tgtW, tgtW] (by
    norm_num [homingAux, maxErr, maxQ, fabsQ, tgtW, fbW, homingThreshold,
      List.finRange, List.range, List.range.loop])

/-- C10: the loop body always runs at least once (the running maximum error
starts at 1000.0, above the threshold), so the command list is nonempty:
the 7 joint commands are published at least once before convergence is first
evaluated, and every published command equals the target. -/
theorem homing_body_runs_once (tgt : Fin 7 → ℚ) (fb : ℕ → Fin 7 → ℚ)
    (fuel n : ℕ) (pubs : List (Fin 7 → ℚ))
    (h : homingAux tgt fb fuel 0 = some (n, pubs)) :
    1 ≤ n ∧ pubs.length = n ∧ (∀ p ∈ pubs, p = tgt) ∧ pubs ≠ [] := by
  obtain ⟨hk, _, _, hrep⟩ := homingAux_spec tgt fb fuel 0 n pubs h
  refine ⟨hk, ?_, ?_, ?_⟩
  · rw [hrep]; simp
  · intro p hp
    rw [hrep] at hp
    exact List.eq_of_mem_replicate hp
  · rw [hrep]
    simp
    omega

/-- Feedback stream for the body-runs-once witness: the feedback already
matches the target at the very first poll, and the loop still runs one body
(one publish of all 7 commands) before exiting. -/
def fbMatched : ℕ → Fin 7 → ℚ := fun _ _ => 0

theorem homing_body_runs_once_witness :
    1 ≤ 1 ∧ ([tgtW] : List (Fin 7 → ℚ)).length = 1
      ∧ (∀ p ∈ ([tgtW] : List (Fin 7 → ℚ)), p = tgtW)
      ∧ ([tgtW] : List (Fin 7 → ℚ)) ≠ [] :=
  homing_body_runs_once tgtW fbMatched 3 1 [tgtW] (by
    norm_num [homingAux, maxErr, maxQ, fabsQ, tgtW, fbMatched, homingThreshold,
      List.finRange, List.range, List.range.loop])

/-! ## Shared robot state and its transitions

The node's cross-task mutable state: the three control flags (_first_js,
_first_fk, _start_traj), the frequency _freq and clock _t, the joint
feedback vector _q_in and the last forward-kinematics frame _p_out.  The
operations that touch it are the joint_states_cb callback, one iteration of
the get_dirkin loop (the pose-estimation tick), the operator confirmation in
ctrl_loop that sets _start_traj, and one iteration of the tracking loop
(which reads but never writes this state).  The external forward-kinematics
solver JntToCart is an oracle parameter fk. -/

/-- End-effector frame as KDL::Frame: position and flat 3x3 rotation data. -/
structure FrameQ where
  p : Fin 3 → ℚ
  M : Fin 9 → ℚ

/-- The shared state of the KUKA_INVKIN node. -/
structure RState where
  first_js : Bool
  first_fk : Bool
  start_traj : Bool
  freq : ℚ
  t : ℚ
  q_in : Fin 7 → ℚ
  p_out : FrameQ

/-- State after the constructor: flags false, _freq = 50, _t = 0, zeroed
joint vector and frame. -/
def initState : RState :=
  { first_js := false, first_fk := false, start_traj := false,
    freq := 50, t := 0, q_in := fun _ => 0, p_out := ⟨fun _ => 0, fun _ => 0⟩ }

/-- Events that mutate the shared state: a feedback message (with its 7
joint positions), one pose-estimation tick, the operator confirmation that
starts the trajectory, and one tracking-loop tick. -/
inductive Ev where
  | jointCb (pos : Fin 7 → ℚ)
  | fkTick
  | opStart
  | ctrlTick

/-- Effect of each event on the shared state, with the external
forward-kinematics solver fk as an oracle.  joint_states_cb overwrites _q_in
and sets _first_js; a get_dirkin iteration advances _t by 1/_freq exactly
when _start_traj holds, recomputes _p_out, and sets _first_fk; the operator
confirmation sets _start_traj; a tracking iteration does not write this
state. -/
def step (fk : (Fin 7 → ℚ) → FrameQ) : Ev → RState → RState
  | Ev.jointCb pos, s => { s with q_in := pos, first_js := true }
  | Ev.fkTick, s =>
      { s with
        t := if s.start_traj then s.t + 1 / s.freq else s.t,
        p_out := fk s.q_in,
        first_fk := true }
  | Ev.opStart, s => { s with start_traj := true }
  | Ev.ctrlTick, s => s

/-- State reached from the constructor state after a sequence of events. -/
def exec (fk : (Fin 7 → ℚ) → FrameQ) (es : List Ev) : RState :=
  es.foldl (fun s e => step fk e s) initState

lemma step_freq (fk : (Fin 7 → ℚ) → FrameQ) (e : Ev) (s : RState) :
    (step fk e s).freq = s.freq := by
  cases e <;> rfl

lemma foldl_freq (fk : (Fin 7 → ℚ) → FrameQ) :
    ∀ (es : List Ev) (s : RState),
      (es.foldl (fun s e => step fk e s) s).freq = s.freq := by
  intro es
  induction es with
  | nil => intro s; rfl
  | cons e es ih => intro s; rw [List.foldl_cons, ih, step_freq]

lemma exec_freq (fk : (Fin 7 → ℚ) → FrameQ) (es : List Ev) :
    (exec fk es).freq = 50 :=
  foldl_freq fk es initState

/-- C6: the readiness flags start false, each feedback message sets
feedback-received, each pose-estimation tick sets pose-computed, and no
event ever moves any of the three flags from true back to false. -/
theorem readiness_flags_monotone :
    (initState.first_js = false ∧ initState.first_fk = false
      ∧ initState.start_traj = false)
    ∧ (∀ fk e s, (s.first_js = false ∨ (step fk e s).first_js = true)
        ∧ (s.first_fk = false ∨ (step fk e s).first_fk = true)
        ∧ (s.start_traj = false ∨ (step fk e s).start_traj = true))
    ∧ (∀ fk pos s, (step fk (Ev.jointCb pos) s).first_js = true)
    ∧ (∀ fk s, (step fk Ev.fkTick s).first_fk = true) := by
  refine ⟨⟨rfl, rfl, rfl⟩, ?_, fun fk pos s => rfl, fun fk s => rfl⟩
  intro fk e s
  cases e <;> cases hjs : s.first_js <;> cases hfk : s.first_fk <;>
    cases hst : s.start_traj <;> simp [step, hjs, hfk, hst]

/-- C7: on a pose-estimation tick from any reachable state, the clock _t
advances by exactly 1/50 when _start_traj is set and is left unchanged
otherwise (_freq is 50 and is never modified). -/
theorem elapsed_time_tick_iff (fk : (Fin 7 → ℚ) → FrameQ) (es : List Ev) :
    (step fk Ev.fkTick (exec fk es)).t
      = (if (exec fk es).start_traj then (exec fk es).t + 1 / 50
         else (exec fk es).t) := by
  simp only [step, exec_freq]

lemma zero_while_inactive (fk : (Fin 7 → ℚ) → FrameQ) :
    ∀ (es : List Ev) (s : RState), (s.start_traj = true ∨ s.t = 0) →
      ((es.foldl (fun s e => step fk e s) s).start_traj = true
        ∨ (es.foldl (fun s e => step fk e s) s).t = 0) := by
  intro es
  induction es with
  | nil => intro s h; exact h
  | cons e es ih =>
    intro s h
    rw [List.foldl_cons]
    refine ih (step fk e s) ?_
    cases e with
    | jointCb pos => exact h
    | fkTick =>
      rcases h with h | h
      · exact Or.inl (by simp [step, h])
      · cases hst : s.start_traj with
        | true => exact Or.inl (by simp [step, hst])
        | false => exact Or.inr (by simp [step, hst, h])
    | opStart => exact Or.inl rfl
    | ctrlTick => exact h

/-- C9: the clock _t starts at 0; from any reachable state every event
either leaves it unchanged or increases it by exactly 1/50 (so it is
monotone non-decreasing); and in every reachable state it is still exactly 0
unless _start_traj has been set. -/
theorem elapsed_time_monotone :
    initState.t = 0
    ∧ (∀ fk e es, ((step fk e (exec fk es)).t = (exec fk es).t
          ∨ (step fk e (exec fk es)).t = (exec fk es).t + 1 / 50)
        ∧ (exec fk es).t ≤ (step fk e (exec fk es)).t)
    ∧ (∀ fk es, (exec fk es).start_traj = true ∨ (exec fk es).t = 0) := by
  refine ⟨rfl, ?_, ?_⟩
  · intro fk e es
    have hstep : (step fk e (exec fk es)).t = (exec fk es).t
        ∨ (step fk e (exec fk es)).t = (exec fk es).t + 1 / 50 := by
      cases e with
      | jointCb pos => exact Or.inl rfl
      | fkTick =>
        cases hst : (exec fk es).start_traj with
        | true => exact Or.inr (by simp [step, hst, exec_freq])
        | false => exact Or.inl (by simp [step, hst])
      | opStart => exact Or.inl rfl
      | ctrlTick => exact Or.inl rfl
    refine ⟨hstep, ?_⟩
    rcases hstep with h | h
    · rw [h]
    · rw [h]; linarith
  · intro fk es
    exact zero_while_inactive fk es initState (Or.inr rfl)

/-! ## TrackingControlTask tick after the CartToJnt call (ctrl_loop)

After building the desired frame, the loop calls the external solver:
  if( _ik_solver_pos->CartToJnt(*_q_in, F_dest, q_out) != KDL::SolverI::E_NOERROR )
    cout << "failing in ik!" << endl;
and then, with no condition, copies q_out.data[0..6] into cmd[0..6] and
publishes all 7 commands. -/

/-- KDL success return code. -/
def E_NOERROR : Int := 0

/-- Externally visible outputs of one tracking-loop iteration: whether the
failure diagnostic was printed, and the commands published on the 7 command
channels this tick (channel i carries entry i). -/
structure TickOut where
  diag : Bool
  cmds : List ℚ

/-- One tracking-loop iteration after the CartToJnt call, given the return
code and output joint vector of the external solver. -/
def trackingTick (ikRet : Int) (q_out : Fin 7 → ℚ) : TickOut :=
  { diag := ikRet != E_NOERROR
  , cmds := (List.finRange 7).map (fun i => q_out i) }

/-- C1 counterexample: on a tick where CartToJnt returns a non-E_NOERROR
code (here 1), the loop still publishes a command on all 7 channels — the
diagnostic is printed, but the command is not skipped. -/
theorem ik_failure_still_publishes_cx :
    (1 : Int) ≠ E_NOERROR
      ∧ (trackingTick 1 (fun _ => 0)).diag = true
      ∧ (trackingTick 1 (fun _ => 0)).cmds.length = 7 := by
  refine ⟨by decide, rfl, rfl⟩

/-- C1 amended: on every tracking tick, whatever the CartToJnt return code,
the task publishes the solver's output joint vector (its last, possibly
unconverged, estimate) on all 7 command channels; the failure diagnostic is
printed exactly when the return code is not E_NOERROR. -/
theorem tracking_tick_always_publishes (ikRet : Int) (q_out : Fin 7 → ℚ) :
    (trackingTick ikRet q_out).cmds = (List.finRange 7).map q_out
      ∧ (trackingTick ikRet q_out).cmds.length = 7
      ∧ ((trackingTick ikRet q_out).diag = true ↔ ikRet ≠ E_NOERROR) := by
  refine ⟨rfl, by simp [trackingTick], ?_⟩
  simp [trackingTick]

/-! ## Pose publication: the orientation assignment of get_dirkin

The loop extracts (qx, qy, qz, qw) from the rotation matrix and writes the
message fields as
  cpose.orientation.w = qw;  cpose.orientation.x = qx;
  cpose.orientation.y = qy;  cpose.orientation.x = qz;
the message object cpose persists across loop iterations, so the never
written z field keeps whatever value it had before. -/

/-- Quaternion fields of the published geometry pose message. -/
structure OrientMsg where
  w : ℚ
  x : ℚ
  y : ℚ
  z : ℚ

/-- The orientation-field assignment sequence of the source, starting from
the previous contents o of the message fields. -/
def setOrientation (o : OrientMsg) (qx qy qz qw : ℚ) : OrientMsg :=
  let o1 := { o with w := qw }
  let o2 := { o1 with x := qx }
  let o3 := { o2 with y := qy }
  { o3 with x := qz }

/-- Modelled from the spec: the specified design assigns each of w, x, y, z
exactly once from the solved rotation, w = qw, x = qx, y = qy, z = qz. -/
def setOrientationSpec (qx qy qz qw : ℚ) : OrientMsg :=
  { w := qw, x := qx, y := qy, z := qz }

/-- C2: the transcription slip in the source.  With quaternion
(qx, qy, qz, qw) = (1, 2, 3, 4) and a stale z field 9, the published
orientation is (w, x, y, z) = (4, 3, 2, 9): the x field is assigned twice
(ending at qz = 3) and the z field is never assigned (keeping 9), so the
result differs from the specified single-assignment design; in general the
published x field equals qz and the published z field is the stale previous
value. -/
theorem orientation_assignment_slip :
    setOrientation ⟨0, 0, 0, 9⟩ 1 2 3 4 = ⟨4, 3, 2, 9⟩
      ∧ setOrientation ⟨0, 0, 0, 9⟩ 1 2 3 4 ≠ setOrientationSpec 1 2 3 4
      ∧ (∀ o qx qy qz qw, (setOrientation o qx qy qz qw).x = qz
          ∧ (setOrientation o qx qy qz qw).z = o.z
          ∧ (setOrientation o qx qy qz qw).w = qw
          ∧ (setOrientation o qx qy qz qw).y = qy) := by
  refine ⟨rfl, ?_, fun o qx qy qz qw => ⟨rfl, rfl, rfl, rfl⟩⟩
  intro h
  have hx := congrArg OrientMsg.x h
  norm_num [setOrientation, setOrientationSpec] at hx

/-! ## Feedback ingestion bounds (joint_states_cb)

The callback runs
  for(int i=0; i<7; i++) _q_in->data[i] = js.position[i];
with no check of the message length or the joint-vector size.  Each access
is modelled on lists with out-of-bounds reads or writes mapped to none. -/

/-- One loop step of the callback: read js.position[i], write it at index i
of the joint vector; none models the out-of-bounds access the source would
perform. -/
def cbStep (pos q : List ℚ) (i : ℕ) : Option (List ℚ) :=
  match pos[i]? with
  | none => none
  | some v => if i < q.length then some (q.set i v) else none

/-- The callback's for-loop with n remaining iterations and next index i. -/
def cbRun (pos : List ℚ) : ℕ → ℕ → List ℚ → Option (List ℚ)
  | 0, _, q => some q
  | n + 1, i, q => (cbStep pos q i).bind (cbRun pos n (i + 1))

lemma cbRun_succ (pos : List ℚ) (n i : ℕ) (q : List ℚ) :
    cbRun pos (n + 1) i q = (cbStep pos q i).bind (cbRun pos n (i + 1)) := rfl

lemma cbStep_none (pos q : List ℚ) (i : ℕ) (h : pos[i]? = none) :
    cbStep pos q i = none := by
  simp [cbStep, h]

lemma cbStep_some (pos q : List ℚ) (i : ℕ) (v : ℚ) (h : pos[i]? = some v)
    (hq : i < q.length) : cbStep pos q i = some (q.set i v) := by
  simp [cbStep, h, hq]

lemma cbStep_oob (pos q : List ℚ) (i : ℕ) (v : ℚ) (h : pos[i]? = some v)
    (hq : ¬ i < q.length) : cbStep pos q i = none := by
  simp [cbStep, h, hq]

/-- joint_states_cb: for i in 0..6, _q_in->data[i] = js.position[i]. -/
def jointStatesCb (pos q : List ℚ) : Option (List ℚ) := cbRun pos 7 0 q

lemma cbRun_ok (pos : List ℚ) :
    ∀ (n i : ℕ) (q : List ℚ), i + n ≤ pos.length → i + n ≤ q.length →
      ∃ q1, cbRun pos n i q = some q1 ∧ q1.length = q.length
        ∧ (∀ j, i ≤ j → j < i + n → q1[j]? = pos[j]?)
        ∧ (∀ j, j < i ∨ i + n ≤ j → q1[j]? = q[j]?) := by
  intro n
  induction n with
  | zero =>
    intro i q hp hq
    refine ⟨q, rfl, rfl, ?_, fun j _ => rfl⟩
    intro j h1 h2
    omega
  | succ n ih =>
    intro i q hp hq
    cases hget : pos[i]? with
    | none =>
      have := List.getElem?_eq_none_iff.mp hget
      omega
    | some v =>
      have hiq : i < q.length := by omega
      obtain ⟨q1, hrun, hlen, hin, hout⟩ :=
        ih (i + 1) (q.set i v) (by omega) (by rw [List.length_set]; omega)
      refine ⟨q1, ?_, by rw [hlen, List.length_set], ?_, ?_⟩
      · rw [cbRun_succ, cbStep_some pos q i v hget hiq]
        exact hrun
      · intro j h1 h2
        rcases Nat.eq_or_lt_of_le h1 with heq | hlt
        · rw [hout j (Or.inl (by omega)), ← heq,
            List.getElem?_set_eq_of_lt v hiq, hget]
        · exact hin j hlt (by omega)
      · intro j hj
        have hne : i ≠ j := by omega
        rw [hout j (by omega), List.getElem?_set_ne hne]

lemma cbRun_oob (pos : List ℚ) :
    ∀ (n i : ℕ) (q : List ℚ),
      pos.length < i + n + 1 ∨ q.length < i + n + 1 →
      cbRun pos (n + 1) i q = none := by
  intro n
  induction n with
  | zero =>
    intro i q h
    cases hget : pos[i]? with
    | none =>
      rw [cbRun_succ, cbStep_none pos q i hget]
      rfl
    | some v =>
      have hip : i < pos.length := by
        by_contra hc
        rw [List.getElem?_eq_none_iff.mpr (by omega)] at hget
        exact Option.noConfusion hget
      have hiq : ¬ i < q.length := by
        rcases h with h | h
        · omega
        · omega
      rw [cbRun_succ, cbStep_oob pos q i v hget hiq]
      rfl
  | succ n ih =>
    intro i q h
    cases hget : pos[i]? with
    | none =>
      rw [cbRun_succ, cbStep_none pos q i hget]
      rfl
    | some v =>
      by_cases hiq : i < q.length
      · have hrec := ih (i + 1) (q.set i v) (by rw [List.length_set]; omega)
        rw [cbRun_succ, cbStep_some pos q i v hget hiq]
        exact hrec
      · rw [cbRun_succ, cbStep_oob pos q i v hget hiq]
        rfl

/-- C8: the feedback callback reads message indices 0 through 6 and writes
joint-vector indices 0 through 6 with no validation.  When the message
carries at least 7 positions and the joint vector has at least 7 entries, no
access is out of bounds: the callback succeeds, the first 7 entries become
the first 7 message positions, and nothing else changes.  When either is
shorter than 7, the callback performs an out-of-bounds access (modelled as
none): the source attempts the accesses unconditionally. -/
theorem joint_cb_bounds (pos q : List ℚ) :
    (7 ≤ pos.length → 7 ≤ q.length →
      ∃ q1, jointStatesCb pos q = some q1 ∧ q1.length = q.length
        ∧ (∀ j, j < 7 → q1[j]? = pos[j]?)
        ∧ (∀ j, 7 ≤ j → q1[j]? = q[j]?))
    ∧ ((pos.length < 7 ∨ q.length < 7) → jointStatesCb pos q = none) := by
  constructor
  · intro hp hq
    obtain ⟨q1, hrun, hlen, hin, hout⟩ :=
      cbRun_ok pos 7 0 q (by omega) (by omega)
    exact ⟨q1, hrun, hlen, fun j hj => hin j (Nat.zero_le j) (by omega),
      fun j hj => hout j (Or.inr (by omega))⟩
  · intro h
    exact cbRun_oob pos 6 0 q (by omega)

/-- Witness for joint_cb_bounds: a 7-position message ingested into a
7-entry joint vector succeeds and copies the message. -/
theorem joint_cb_bounds_witness :
    ∃ q1, jointStatesCb [1, 2, 3, 4, 5, 6, 7] [0, 0, 0, 0, 0, 0, 0] = some q1
      ∧ q1.length = 7
      ∧ (∀ j, j < 7 →
          q1[j]? = ([1, 2, 3, 4, 5, 6, 7] : List ℚ)[j]?)
      ∧ (∀ j, 7 ≤ j →
          q1[j]? = ([0, 0, 0, 0, 0, 0, 0] : List ℚ)[j]?) :=
  (joint_cb_bounds [1, 2, 3, 4, 5, 6, 7] [0, 0, 0, 0, 0, 0, 0]).1
    (by simp) (by simp)

end KukaInvKin
